import Mathlib

/-!
# TalentScout Hiring Assistant — verification of the specification claims

Shallow embedding of the functional core of the repository
(`src/utils.py`, `src/app.py`, `src/prompts.py`).  Python strings are
modelled as `List Char` (a Python `str` is a sequence of code points);
the helpers below reproduce the Python string primitives the source
uses (`str.strip`, `str.split(",")`, `str.replace(" and ", ",")`,
`str.splitlines`, slicing, `str.isdigit`, `startswith`, `", ".join`).
Remote calls (`google.generativeai`) are modelled as explicit
`Except`/oracle inputs; `pandas` CSV persistence as a list of rows.
-/

namespace TalentScout

/-- The whitespace characters stripped by Python's `str.strip()`
(core ASCII set; the repository only ever deals with these). -/
def isWS (c : Char) : Bool :=
  c = ' ' || c = '\t' || c = '\n' || c = '\r'

/-- Python `s.strip()`: drop leading and trailing whitespace. -/
def stripChars (s : List Char) : List Char :=
  ((s.dropWhile isWS).reverse.dropWhile isWS).reverse

/-- Boolean "the first argument is an initial segment of the second". -/
def leadsWith : List Char → List Char → Bool
  | [], _ => true
  | _ :: _, [] => false
  | p :: ps, c :: cs => p = c && leadsWith ps cs

/-- Boolean substring-occurrence test: `pat` occurs contiguously in `s`. -/
def hasSubseg (pat : List Char) : List Char → Bool
  | [] => leadsWith pat []
  | c :: cs => leadsWith pat (c :: cs) || hasSubseg pat cs

/-- The literal `" and "` that `parse_tech_stack` replaces with a comma. -/
def sepPat : List Char := [' ', 'a', 'n', 'd', ' ']

/-- Python `value.replace(" and ", ",")`: left-to-right, non-overlapping,
resuming after each replaced occurrence. -/
def replaceAndComma : List Char → List Char
  | ' ' :: 'a' :: 'n' :: 'd' :: ' ' :: rest => ',' :: replaceAndComma rest
  | c :: cs => c :: replaceAndComma cs
  | [] => []

/-- Python `s.split(",")` (`split` with an explicit separator keeps
empty pieces; `"".split(",") == [""]`). -/
def splitComma : List Char → List (List Char)
  | [] => [[]]
  | c :: cs =>
    if c = ',' then [] :: splitComma cs
    else (c :: (splitComma cs).headI) :: (splitComma cs).tail

/-- Python `", ".join(tokens)`. -/
def joinCS : List (List Char) → List Char
  | [] => []
  | [t] => t
  | t :: ts => t ++ ',' :: ' ' :: joinCS ts

/-- `parse_tech_stack` (src/utils.py:171-175): replace `" and "` with a
comma, split on commas, strip each piece, drop empty pieces. -/
def parse_tech_stack (value : List Char) : List (List Char) :=
  if value = [] then []
  else ((splitComma (replaceAndComma value)).map stripChars).filter (· ≠ [])

/-- Modelled from the spec's words (§4.2), for comparison with
`parse_tech_stack`: "replace every occurrence of the literal substring
`" and "` with a comma, split on commas, trim whitespace from each
piece, drop empty pieces, preserve order". -/
def tokenizeSpec (value : List Char) : List (List Char) :=
  ((splitComma (replaceAndComma value)).map stripChars).filter (· ≠ [])

/-- `parse_tech_stack` lifted to Lean `String`, for readable statements. -/
def parseTechStackStr (s : String) : List String :=
  (parse_tech_stack s.toList).map List.asString

/-- The spec-worded tokenizer lifted to Lean `String`. -/
def tokenizeSpecStr (s : String) : List String :=
  (tokenizeSpec s.toList).map List.asString

theorem parse_tech_stack_eq_spec (v : List Char) :
    parse_tech_stack v = tokenizeSpec v := by
  by_cases h : v = []
  · subst h; decide
  · simp [parse_tech_stack, tokenizeSpec, h]

/-! ## Lemmas about the char-level string primitives -/

/-- The tail of `sepPat`: the 4-character pattern `"and "`. -/
def andTail : List Char := ['a', 'n', 'd', ' ']

theorem leadsWith_iff (p : List Char) : ∀ s : List Char,
    leadsWith p s = true ↔ ∃ r, s = p ++ r := by
  induction p with
  | nil => intro s; simp [leadsWith]
  | cons x ps ih =>
    intro s
    cases s with
    | nil => simp [leadsWith]
    | cons c cs =>
      simp only [leadsWith, Bool.and_eq_true, decide_eq_true_eq, ih,
        List.cons_append, List.cons.injEq]
      constructor
      · rintro ⟨h1, r, h2⟩; exact ⟨r, h1.symm, h2⟩
      · rintro ⟨r, h1, h2⟩; exact ⟨h1.symm, r, h2⟩

theorem hasSubseg_cons (pat : List Char) (c : Char) (cs : List Char) :
    hasSubseg pat (c :: cs) = (leadsWith pat (c :: cs) || hasSubseg pat cs) := rfl

theorem leadsWith_append_right {p a : List Char} (r : List Char)
    (h : leadsWith p a = true) : leadsWith p (a ++ r) = true := by
  rcases (leadsWith_iff p a).mp h with ⟨q, rfl⟩
  exact (leadsWith_iff p _).mpr ⟨q ++ r, by simp⟩

theorem leadsWith_append_comma {p : List Char} (hp : ',' ∉ p) :
    ∀ a r : List Char, leadsWith p (a ++ ',' :: r) = true → leadsWith p a = true := by
  induction p with
  | nil => intro a r _; simp [leadsWith]
  | cons x ps ih =>
    intro a r h
    cases a with
    | nil =>
      exfalso
      rcases (leadsWith_iff _ _).mp h with ⟨q, hq⟩
      simp only [List.nil_append, List.cons_append, List.cons.injEq] at hq
      exact hp (by simp [← hq.1])
    | cons c cs =>
      simp only [List.cons_append, leadsWith, Bool.and_eq_true] at h ⊢
      exact ⟨h.1, ih (fun hm => hp (List.mem_cons_of_mem _ hm)) cs r h.2⟩

theorem hasSubseg_ne_nil {p t : List Char} (h : hasSubseg p t = false) : p ≠ [] := by
  intro hp
  subst hp
  cases t with
  | nil => simp [hasSubseg, leadsWith] at h
  | cons c cs => simp [hasSubseg_cons, leadsWith] at h

theorem hasSubseg_append_comma {p : List Char} (hp : ',' ∉ p) :
    ∀ t r : List Char, hasSubseg p t = false → hasSubseg p r = false →
      hasSubseg p (t ++ ',' :: r) = false := by
  intro t
  induction t with
  | nil =>
    intro r ht hr
    rcases List.exists_cons_of_ne_nil (hasSubseg_ne_nil ht) with ⟨x, ps, rfl⟩
    simp only [List.nil_append, hasSubseg_cons, Bool.or_eq_false_iff]
    refine ⟨?_, hr⟩
    cases hx : leadsWith (x :: ps) (',' :: r) with
    | false => rfl
    | true =>
      exfalso
      rcases (leadsWith_iff _ _).mp hx with ⟨q, hq⟩
      simp only [List.cons_append, List.cons.injEq] at hq
      exact hp (by simp [← hq.1])
  | cons c cs ih =>
    intro r ht hr
    simp only [hasSubseg_cons, Bool.or_eq_false_iff] at ht
    simp only [List.cons_append, hasSubseg_cons, Bool.or_eq_false_iff]
    refine ⟨?_, ih r ht.2 hr⟩
    cases hx : leadsWith p (c :: (cs ++ ',' :: r)) with
    | false => rfl
    | true =>
      exfalso
      have : leadsWith p (c :: cs) = true :=
        leadsWith_append_comma hp (c :: cs) r (by simpa using hx)
      simp [this] at ht

/-- The first-branch condition of `replaceAndComma`, as a `leadsWith` fact. -/
theorem leadsWith_sepPat_iff (s : List Char) :
    leadsWith sepPat s = true ↔ ∃ rest, s = ' ' :: 'a' :: 'n' :: 'd' :: ' ' :: rest := by
  rw [leadsWith_iff]
  constructor
  · rintro ⟨r, rfl⟩; exact ⟨r, rfl⟩
  · rintro ⟨rest, rfl⟩; exact ⟨rest, rfl⟩

theorem leadsWith_replaceAndComma :
    ∀ s p : List Char, ',' ∉ p →
      leadsWith p (replaceAndComma s) = true → leadsWith p s = true := by
  intro s
  induction s using replaceAndComma.induct with
  | case1 rest ih =>
    intro p hp h
    simp only [replaceAndComma] at h
    cases p with
    | nil => simp [leadsWith]
    | cons x ps =>
      exfalso
      rcases (leadsWith_iff _ _).mp h with ⟨q, hq⟩
      simp only [List.cons_append, List.cons.injEq] at hq
      exact hp (by simp [← hq.1])
  | case2 c cs hne ih =>
    intro p hp h
    rw [replaceAndComma.eq_2 c cs hne] at h
    cases p with
    | nil => simp [leadsWith]
    | cons x ps =>
      simp only [leadsWith, Bool.and_eq_true] at h ⊢
      exact ⟨h.1, ih ps (fun hm => hp (List.mem_cons_of_mem _ hm)) h.2⟩
  | case3 =>
    intro p hp h
    simpa [replaceAndComma] using h

theorem hasSubseg_replaceAndComma (s : List Char) :
    hasSubseg sepPat (replaceAndComma s) = false := by
  induction s using replaceAndComma.induct with
  | case1 rest ih =>
    simp only [replaceAndComma, hasSubseg_cons, Bool.or_eq_false_iff]
    exact ⟨by simp [leadsWith, sepPat], ih⟩
  | case2 c cs hne ih =>
    rw [replaceAndComma.eq_2 c cs hne]
    simp only [hasSubseg_cons, Bool.or_eq_false_iff]
    refine ⟨?_, ih⟩
    cases hx : leadsWith sepPat (c :: replaceAndComma cs) with
    | false => rfl
    | true =>
      exfalso
      rcases (leadsWith_sepPat_iff _).mp hx with ⟨rest, hq⟩
      simp only [List.cons.injEq] at hq
      have htail : leadsWith andTail (replaceAndComma cs) = true := by
        rw [hq.2]
        exact (leadsWith_iff _ _).mpr ⟨rest, rfl⟩
      have : leadsWith andTail cs = true :=
        leadsWith_replaceAndComma cs andTail (by decide) htail
      rcases (leadsWith_iff _ _).mp this with ⟨q, rfl⟩
      exact hne q hq.1 rfl
  | case3 => decide

theorem replaceAndComma_eq_self :
    ∀ s : List Char, hasSubseg sepPat s = false → replaceAndComma s = s := by
  intro s
  induction s using replaceAndComma.induct with
  | case1 rest ih =>
    intro h
    exfalso
    simp only [hasSubseg_cons, Bool.or_eq_false_iff] at h
    have : leadsWith sepPat (' ' :: 'a' :: 'n' :: 'd' :: ' ' :: rest) = true :=
      (leadsWith_sepPat_iff _).mpr ⟨rest, rfl⟩
    simp [this] at h
  | case2 c cs hne ih =>
    intro h
    simp only [hasSubseg_cons, Bool.or_eq_false_iff] at h
    rw [replaceAndComma.eq_2 c cs hne, ih h.2]
  | case3 => intro _; rfl

theorem splitComma_ne_nil : ∀ s : List Char, splitComma s ≠ [] := by
  intro s
  cases s with
  | nil => simp [splitComma]
  | cons c cs =>
    simp only [splitComma]
    split <;> simp

theorem splitComma_headI_append (s : List Char) :
    ∃ r, s = (splitComma s).headI ++ r := by
  induction s with
  | nil => exact ⟨[], rfl⟩
  | cons c cs ih =>
    by_cases hc : c = ','
    · subst hc
      exact ⟨',' :: cs, by simp [splitComma]⟩
    · rcases ih with ⟨r, hr⟩
      refine ⟨r, ?_⟩
      simp only [splitComma, hc, if_false, List.headI_cons]
      rw [List.cons_append, ← hr]

theorem splitComma_append_comma {t : List Char} (h : ',' ∉ t) (r : List Char) :
    splitComma (t ++ ',' :: r) = t :: splitComma r := by
  induction t with
  | nil => simp [splitComma]
  | cons c cs ih =>
    have hc : c ≠ ',' := fun hc => h (by simp [hc])
    have ih' := ih (fun hm => h (List.mem_cons_of_mem _ hm))
    simp [splitComma, hc, ih']

theorem splitComma_no_comma {t : List Char} (h : ',' ∉ t) :
    splitComma t = [t] := by
  induction t with
  | nil => rfl
  | cons c cs ih =>
    have hc : c ≠ ',' := fun hc => h (by simp [hc])
    have ih' := ih (fun hm => h (List.mem_cons_of_mem _ hm))
    simp [splitComma, hc, ih']

theorem headI_mem_of_ne_nil {α : Type} [Inhabited α] {l : List α} (h : l ≠ []) :
    l.headI ∈ l := by
  cases l with
  | nil => exact absurd rfl h
  | cons a t => simp [List.headI_cons]

theorem comma_not_mem_splitComma :
    ∀ s p : List Char, p ∈ splitComma s → ',' ∉ p := by
  intro s
  induction s with
  | nil =>
    intro p hp
    simp only [splitComma, List.mem_singleton] at hp
    simp [hp]
  | cons c cs ih =>
    intro p hp
    by_cases hc : c = ','
    · subst hc
      simp only [splitComma, if_true, List.mem_cons] at hp
      rcases hp with rfl | hp
      · simp
      · exact ih p hp
    · simp only [splitComma, hc, if_false, List.mem_cons] at hp
      rcases hp with rfl | hp
      · intro hm
        rcases List.mem_cons.mp hm with h1 | h1
        · exact hc h1.symm
        · have : (splitComma cs).headI ∈ splitComma cs :=
            headI_mem_of_ne_nil (splitComma_ne_nil cs)
          exact ih _ this h1
      · have : p ∈ splitComma cs := List.mem_of_mem_tail hp
        exact ih p this

theorem hasSubseg_of_leadsWith {p s : List Char} (h : leadsWith p s = true) :
    hasSubseg p s = true := by
  cases s with
  | nil => simpa [hasSubseg] using h
  | cons c cs => simp [hasSubseg_cons, h]

theorem hasSubseg_splitComma :
    ∀ s p : List Char, hasSubseg sepPat s = false → p ∈ splitComma s →
      hasSubseg sepPat p = false := by
  intro s
  induction s with
  | nil =>
    intro p _ hp
    simp only [splitComma, List.mem_singleton] at hp
    subst hp; decide
  | cons c cs ih =>
    intro p hs hp
    simp only [hasSubseg_cons, Bool.or_eq_false_iff] at hs
    by_cases hc : c = ','
    · subst hc
      simp only [splitComma, if_true, List.mem_cons] at hp
      rcases hp with rfl | hp
      · decide
      · exact ih p hs.2 hp
    · simp only [splitComma, hc, if_false, List.mem_cons] at hp
      rcases hp with rfl | hp
      · -- the head piece `c :: (splitComma cs).headI`, a prefix of `c :: cs`
        simp only [hasSubseg_cons, Bool.or_eq_false_iff]
        constructor
        · cases hx : leadsWith sepPat (c :: (splitComma cs).headI) with
          | false => rfl
          | true =>
            exfalso
            rcases splitComma_headI_append cs with ⟨r, hr⟩
            have : leadsWith sepPat (c :: cs) = true := by
              rw [hr, ← List.cons_append]
              exact leadsWith_append_right r hx
            simp [this] at hs
        · have hh : (splitComma cs).headI ∈ splitComma cs :=
            headI_mem_of_ne_nil (splitComma_ne_nil cs)
          exact ih _ hs.2 hh
      · exact ih p hs.2 (List.mem_of_mem_tail hp)

/-! ### Lemmas about `stripChars` -/

theorem dropWhileWS_idem (s : List Char) :
    (s.dropWhile isWS).dropWhile isWS = s.dropWhile isWS := by
  induction s with
  | nil => rfl
  | cons c cs ih =>
    by_cases hc : isWS c
    · simp [List.dropWhile_cons, hc, ih]
    · simp [List.dropWhile_cons, hc]

theorem dropWhileWS_of_eq_self {s : List Char} (h : s.dropWhile isWS = s) :
    ∀ t r : List Char, s = t ++ r → t.dropWhile isWS = t := by
  intro t r hs
  cases t with
  | nil => rfl
  | cons c t' =>
    subst hs
    rw [List.cons_append] at h
    rw [List.dropWhile_cons] at h ⊢
    by_cases hc : isWS c
    · exfalso
      simp only [hc, if_true] at h
      have := congrArg List.length h
      have hle : (List.dropWhile isWS (t' ++ r)).length ≤ (t' ++ r).length :=
        (List.dropWhile_suffix isWS).length_le
      simp at this hle
      omega
    · simp [hc]

theorem stripChars_left_eq (s : List Char) :
    (stripChars s).dropWhile isWS = stripChars s := by
  unfold stripChars
  set v := s.dropWhile isWS with hv
  have hvl : v.dropWhile isWS = v := by rw [hv]; exact dropWhileWS_idem s
  -- stripChars s = reverse (dropWhile isWS (reverse v)), a prefix of v
  have hsuf : ∃ a, v.reverse = a ++ (v.reverse.dropWhile isWS) :=
    ⟨v.reverse.takeWhile isWS, (List.takeWhile_append_dropWhile isWS v.reverse).symm⟩
  rcases hsuf with ⟨a, ha⟩
  have hpre : v = (v.reverse.dropWhile isWS).reverse ++ a.reverse := by
    have := congrArg List.reverse ha
    simpa using this
  exact dropWhileWS_of_eq_self hvl _ _ hpre

theorem stripChars_rev (s : List Char) :
    (stripChars s).reverse = (s.dropWhile isWS).reverse.dropWhile isWS := by
  simp [stripChars]

theorem stripChars_idem (s : List Char) :
    stripChars (stripChars s) = stripChars s := by
  have h1 : (stripChars s).dropWhile isWS = stripChars s := stripChars_left_eq s
  show (((stripChars s).dropWhile isWS).reverse.dropWhile isWS).reverse = stripChars s
  rw [h1, stripChars_rev, dropWhileWS_idem]
  simp [stripChars]

theorem stripChars_mem {c : Char} {s : List Char} (h : c ∈ stripChars s) : c ∈ s := by
  unfold stripChars at h
  rw [List.mem_reverse] at h
  have h2 : c ∈ (s.dropWhile isWS).reverse :=
    (List.dropWhile_suffix isWS).sublist.subset h
  rw [List.mem_reverse] at h2
  exact (List.dropWhile_suffix isWS).sublist.subset h2

theorem stripChars_decomp (s : List Char) :
    ∃ a b, s = a ++ stripChars s ++ b := by
  refine ⟨s.takeWhile isWS,
    ((s.dropWhile isWS).reverse.takeWhile isWS).reverse, ?_⟩
  have h1 : s = s.takeWhile isWS ++ s.dropWhile isWS :=
    (List.takeWhile_append_dropWhile isWS s).symm
  have h2 : (s.dropWhile isWS).reverse =
      (s.dropWhile isWS).reverse.takeWhile isWS ++
        (s.dropWhile isWS).reverse.dropWhile isWS :=
    (List.takeWhile_append_dropWhile isWS _).symm
  have h3 : s.dropWhile isWS =
      stripChars s ++ ((s.dropWhile isWS).reverse.takeWhile isWS).reverse := by
    have h4 := congrArg List.reverse h2
    rw [List.reverse_reverse, List.reverse_append] at h4
    exact h4
  rw [List.append_assoc, ← h3, ← h1]

theorem hasSubseg_iff (p : List Char) : ∀ s : List Char,
    hasSubseg p s = true ↔ ∃ l r, s = l ++ p ++ r := by
  intro s
  induction s with
  | nil =>
    show leadsWith p [] = true ↔ _
    rw [leadsWith_iff]
    constructor
    · rintro ⟨r, hr⟩; exact ⟨[], r, by simpa using hr⟩
    · rintro ⟨l, r, hr⟩
      have h0 : l = [] ∧ p = [] ∧ r = [] := by simpa using hr.symm
      exact ⟨[], by simp [h0.2.1]⟩
  | cons c cs ih =>
    rw [hasSubseg_cons, Bool.or_eq_true, leadsWith_iff, ih]
    constructor
    · rintro (⟨r, hr⟩ | ⟨l, r, hr⟩)
      · exact ⟨[], r, by simpa using hr⟩
      · exact ⟨c :: l, r, by simp [hr]⟩
    · rintro ⟨l, r, hr⟩
      cases l with
      | nil => exact Or.inl ⟨r, by simpa using hr⟩
      | cons x l' =>
        right
        refine ⟨l', r, ?_⟩
        rw [List.cons_append, List.cons_append] at hr
        injection hr with h1 h2

theorem hasSubseg_of_decomp {p m : List Char} (hm : hasSubseg p m = true)
    (a b : List Char) : hasSubseg p (a ++ m ++ b) = true := by
  rcases (hasSubseg_iff p m).mp hm with ⟨l, r, rfl⟩
  exact (hasSubseg_iff p _).mpr ⟨a ++ l, r ++ b, by simp⟩

theorem hasSubseg_stripChars {p s : List Char}
    (h : hasSubseg p (stripChars s) = true) : hasSubseg p s = true := by
  rcases stripChars_decomp s with ⟨a, b, hs⟩
  rw [hs]
  exact hasSubseg_of_decomp h a b

theorem stripChars_cons_space (s : List Char) :
    stripChars (' ' :: s) = stripChars s := by
  simp [stripChars, List.dropWhile_cons, isWS]

/-- Every token produced by `parse_tech_stack` is non-empty, already
stripped, comma-free, and contains no `" and "` occurrence. -/
theorem parse_tech_stack_props {v t : List Char} (h : t ∈ parse_tech_stack v) :
    t ≠ [] ∧ stripChars t = t ∧ ',' ∉ t ∧ hasSubseg sepPat t = false := by
  unfold parse_tech_stack at h
  by_cases hv : v = []
  · simp [hv] at h
  · rw [if_neg hv] at h
    rw [List.mem_filter] at h
    rcases h with ⟨hmap, hne⟩
    rcases List.mem_map.mp hmap with ⟨p, hp, rfl⟩
    have hR : hasSubseg sepPat (replaceAndComma v) = false :=
      hasSubseg_replaceAndComma v
    refine ⟨by simpa using hne, stripChars_idem p, ?_, ?_⟩
    · intro hc
      exact comma_not_mem_splitComma _ p hp (stripChars_mem hc)
    · cases hx : hasSubseg sepPat (stripChars p) with
      | false => rfl
      | true =>
        exfalso
        have h1 : hasSubseg sepPat p = true := hasSubseg_stripChars hx
        have h2 : hasSubseg sepPat p = false := hasSubseg_splitComma _ p hR hp
        rw [h1] at h2
        simp at h2

theorem joinCS_cons_cons (t u : List Char) (ts : List (List Char)) :
    joinCS (t :: u :: ts) = t ++ ',' :: ' ' :: joinCS (u :: ts) := rfl

theorem leadsWith_andTail_joinCS {t2 : List Char} (rest : List (List Char))
    (h : leadsWith andTail (joinCS (t2 :: rest)) = true) :
    leadsWith andTail t2 = true := by
  cases rest with
  | nil => simpa [joinCS] using h
  | cons u rs =>
    rw [joinCS_cons_cons] at h
    exact leadsWith_append_comma (by decide) t2 _ h

theorem hasSubseg_joinCS : ∀ ts : List (List Char),
    (∀ t ∈ ts, hasSubseg sepPat t = false) →
    (∀ t ∈ ts.tail, leadsWith andTail t = false) →
    hasSubseg sepPat (joinCS ts) = false := by
  intro ts
  induction ts with
  | nil => intro _ _; decide
  | cons t rest ih =>
    intro h1 h2
    cases rest with
    | nil => simpa [joinCS] using h1 t (by simp)
    | cons u rs =>
      rw [joinCS_cons_cons]
      apply hasSubseg_append_comma (by decide : ',' ∉ sepPat)
      · exact h1 t (by simp)
      · rw [hasSubseg_cons, Bool.or_eq_false_iff]
        constructor
        · cases hx : leadsWith sepPat (' ' :: joinCS (u :: rs)) with
          | false => rfl
          | true =>
            exfalso
            have hx' : leadsWith andTail (joinCS (u :: rs)) = true := by
              have : leadsWith (' ' :: andTail) (' ' :: joinCS (u :: rs)) = true := hx
              simpa [leadsWith] using this
            have hu : leadsWith andTail u = true :=
              leadsWith_andTail_joinCS rs hx'
            have := h2 u (by simp)
            rw [hu] at this
            simp at this
        · exact ih (fun x hx => h1 x (List.mem_cons_of_mem _ hx))
            (fun x hx => h2 x (by simp at hx ⊢; tauto))

theorem splitComma_joinCS : ∀ (rest : List (List Char)) (t : List Char),
    ',' ∉ t → (∀ u ∈ rest, ',' ∉ u) →
    splitComma (joinCS (t :: rest)) = t :: rest.map (fun u => ' ' :: u) := by
  intro rest
  induction rest with
  | nil => intro t h _; simp [joinCS, splitComma_no_comma h]
  | cons u rs ih =>
    intro t h hr
    rw [joinCS_cons_cons, splitComma_append_comma h]
    have hX := ih u (hr u (by simp)) (fun w hw => hr w (by simp [hw]))
    simp [splitComma, hX]

theorem joinCS_ne_nil {t : List Char} (rest : List (List Char)) (h : t ≠ []) :
    joinCS (t :: rest) ≠ [] := by
  cases rest with
  | nil => simpa [joinCS] using h
  | cons u rs => simp [joinCS_cons_cons]

/-- C10 (amended): re-extracting a stored tech_stack value is a no-op —
`parse_tech_stack (joinCS (parse_tech_stack v)) = parse_tech_stack v` —
provided no token after the first begins with the four characters
`"and "`.  (The unconditional claim fails: see the counterexample at
`"x,and Bob"`, whose re-joined form `"x, and Bob"` contains `" and "`
and is re-tokenized differently.) -/
theorem claim_C10_amended (v : List Char)
    (hpre : ∀ t ∈ (parse_tech_stack v).tail, leadsWith andTail t = false) :
    parse_tech_stack (joinCS (parse_tech_stack v)) = parse_tech_stack v := by
  cases hts : parse_tech_stack v with
  | nil => decide
  | cons t rest =>
    have hmem : ∀ x ∈ t :: rest,
        x ≠ [] ∧ stripChars x = x ∧ ',' ∉ x ∧ hasSubseg sepPat x = false := by
      intro x hx
      exact parse_tech_stack_props (v := v) (hts ▸ hx)
    have hne : joinCS (t :: rest) ≠ [] := joinCS_ne_nil rest (hmem t (by simp)).1
    have hsub : hasSubseg sepPat (joinCS (t :: rest)) = false := by
      apply hasSubseg_joinCS
      · exact fun x hx => (hmem x hx).2.2.2
      · intro x hx
        apply hpre
        rw [hts]
        exact hx
    have hrepl := replaceAndComma_eq_self _ hsub
    have hsplit := splitComma_joinCS rest t (hmem t (by simp)).2.2.1
      (fun u hu => (hmem u (by simp [hu])).2.2.1)
    unfold parse_tech_stack
    rw [if_neg hne, hrepl, hsplit]
    have hmaps : (rest.map (fun u => ' ' :: u)).map stripChars = rest := by
      rw [List.map_map]
      have : ∀ u ∈ rest, stripChars (' ' :: u) = u := by
        intro u hu
        rw [stripChars_cons_space]
        exact (hmem u (by simp [hu])).2.1
      calc rest.map (stripChars ∘ fun u => ' ' :: u)
          = rest.map id := List.map_congr_left (fun u hu => this u hu)
        _ = rest := List.map_id rest
    rw [List.map_cons, hmaps, (hmem t (by simp)).2.1]
    rw [List.filter_eq_self.mpr]
    intro x hx
    simpa using (hmem x hx).1

/-! ## `generate_questions` (src/utils.py:109-141) -/

/-- Python `text.splitlines()` for `"\n"`-separated text (the only line
separator occurring in the inputs considered; trailing-empty-line
differences are erased by the subsequent non-empty filter). -/
def splitNl : List Char → List (List Char)
  | [] => [[]]
  | c :: cs =>
    if c = '\n' then [] :: splitNl cs
    else (c :: (splitNl cs).headI) :: (splitNl cs).tail

/-- Python `s.isdigit()` (ASCII digits): non-empty and all digits. -/
def pyIsdigitL (s : List Char) : Bool :=
  !s.isEmpty && s.all (·.isDigit)

/-- The per-line marker cleanup of `generate_questions`
(src/utils.py:124-131), including the two number-stripping conditions
exactly as written (`clean[:2].isdigit() and clean[1:2] == "."`, then
`clean[:3].isdigit() and clean[2:3] == "."`). -/
def cleanLine (line : List Char) : List Char :=
  let c1 := if pyIsdigitL (line.take 2) && decide ((line.drop 1).take 1 = ['.'])
    then stripChars (line.drop 2) else line
  let c2 := if pyIsdigitL (c1.take 3) && decide ((c1.drop 2).take 1 = ['.'])
    then stripChars (c1.drop 3) else c1
  if leadsWith ['-'] c2 || leadsWith ['*'] c2 then stripChars (c2.drop 1) else c2

/-- `generate_questions(tech_stack_list, model)`: the remote call
`model.generate_content(prompt)` is modelled by `genResponse`
(`Except.error` = the call raised; `Except.ok raw` = the call returned
with `response.text or "" = raw`).  The function body has no
`try/except`, so a raising call propagates (`Except.error`). -/
def generate_questions (tech_stack_list : List (List Char))
    (genResponse : Except Unit (List Char)) : Except Unit (List (List Char)) :=
  if tech_stack_list = [] then .ok []
  else
    match genResponse with
    | .error e => .error e
    | .ok raw =>
      let text := stripChars raw
      if text = [] then .ok []
      else
        let lines := ((splitNl text).map stripChars).filter (· ≠ [])
        let questions := (lines.map cleanLine).filter (· ≠ [])
        if questions.length > 5 then .ok (questions.take 5)
        else if questions.length < 3 ∧ lines.length ≥ 3 then .ok (lines.take 3)
        else .ok questions

/-- `generate_questions` lifted to Lean `String`. -/
def generateQuestionsStr (techs : List String) (resp : Except Unit String) :
    Except Unit (List String) :=
  (generate_questions (techs.map String.toList) (resp.map String.toList)).map
    (fun qs => qs.map List.asString)

/-! ## `resolve_supported_model` (src/utils.py:45-106) -/

/-- Python `s.replace("-latest", "")`: left-to-right, non-overlapping. -/
def dropLatest : List Char → List Char
  | '-' :: 'l' :: 'a' :: 't' :: 'e' :: 's' :: 't' :: rest => dropLatest rest
  | c :: cs => c :: dropLatest cs
  | [] => []

/-- `name.replace("-latest", "")` on Lean strings. -/
def stripLatest (s : String) : String := (dropLatest s.toList).asString

/-- Python `s.endswith(t)`. -/
def endsWithL (s t : String) : Bool := leadsWith t.toList.reverse s.toList.reverse

/-- A model record as returned by the remote listing API
(`genai.list_models()`): a name and its supported generation methods. -/
structure GModel where
  name : String
  supported_generation_methods : List String
deriving DecidableEq, Inhabited

/-- `supports_generate` (src/utils.py:64-66). -/
def supports_generate (m : GModel) : Bool :=
  m.supported_generation_methods.contains "generateContent"

/-- `name_matches` (src/utils.py:68-77). -/
def name_matches (m : GModel) (short_or_full : String) : Bool :=
  let clean_name := stripLatest short_or_full
  m.name = short_or_full ||
  m.name = "models/" ++ short_or_full ||
  endsWithL m.name ("/" ++ short_or_full) ||
  endsWithL m.name ("/" ++ clean_name) ||
  m.name = clean_name ||
  m.name = "models/" ++ clean_name

/-- `resolve_supported_model(preferred_name, api_key)`.  The remote
listing is modelled by `listing`: `Except.error` covers both a missing
`genai` library and `genai.list_models()` raising (the two cases return
the same value in the source); `Except.ok models` is a successful
listing. -/
def resolve_supported_model (preferred_name : String)
    (listing : Except Unit (List GModel)) : String :=
  match listing with
  | .error _ =>
    let cleaned := stripLatest preferred_name
    if cleaned ≠ "" then cleaned else "gemini-pro"
  | .ok models =>
    match models.filter supports_generate with
    | [] => "gemini-pro"
    | m0 :: ms =>
      let supported := m0 :: ms
      match supported.find? (fun m => name_matches m preferred_name) with
      | some m => m.name
      | none =>
        let clean_preferred := stripLatest preferred_name
        let preferences :=
          [clean_preferred, "gemini-pro", "gemini-1.5-pro", "gemini-1.5-flash"]
        match preferences.findSome? (fun cand =>
            (supported.find? (fun m => name_matches m cand)).map GModel.name) with
        | some n => n
        | none => m0.name

/-- Modelled from the amended claim's words: exact preferred match among
supported models first; then the preference list (stripped preferred id,
then the known-good generic ids); then the first supported model in
listing order; when listing fails, the suffix-stripped preferred id
(or `"gemini-pro"` when that is empty); and when listing succeeds but no
listed model supports generation, the hard-coded `"gemini-pro"`. -/
def resolveModelSpec (preferred_name : String)
    (listing : Except Unit (List GModel)) : String :=
  let cleaned := stripLatest preferred_name
  match listing with
  | .error _ => if cleaned = "" then "gemini-pro" else cleaned
  | .ok models =>
    let supported := models.filter supports_generate
    if supported.isEmpty then "gemini-pro"
    else
      match supported.find? (fun m => name_matches m preferred_name) with
      | some m => m.name
      | none =>
        match ([cleaned, "gemini-pro", "gemini-1.5-pro", "gemini-1.5-flash"].findSome?
            (fun cand => (supported.find? (fun m => name_matches m cand)).map GModel.name)) with
        | some n => n
        | none => supported.headI.name

/-! ## `blob_sentiment` (src/utils.py:178-186) -/

/-- `blob_sentiment(text)`.  `textblob_available` models `TextBlob is not
None`; `polarity` models the score the black-box sentiment routine
returns for `text` (an exact rational; the thresholds `0.2` are the
rational `1/5`). -/
def blob_sentiment (textblob_available : Bool) (text : String) (polarity : ℚ) :
    ℚ × String :=
  if textblob_available = false ∨ text = "" then (0, "neutral")
  else if polarity > 1/5 then (polarity, "positive")
  else if polarity < -(1/5) then (polarity, "negative")
  else (polarity, "neutral")

/-! ## Candidate record and `save_candidate_row` (src/utils.py:144-156) -/

/-- A Python `dict[str, str]`: association list in insertion order. -/
abbrev PyDict := List (String × String)

/-- Python `d.get(k)`. -/
def dictGet (d : PyDict) (k : String) : Option String :=
  match d.find? (fun kv => kv.1 = k) with
  | some kv => some kv.2
  | none => none

/-- Python `d.get(k, dflt)`. -/
def dictGetD (d : PyDict) (k dflt : String) : String :=
  (dictGet d k).getD dflt

/-- Python `d[k] = v`: update in place if the key exists (keeping its
position), else append. -/
def dictSet (d : PyDict) (k v : String) : PyDict :=
  if d.any (fun kv => kv.1 = k) then
    d.map (fun kv => if kv.1 = k then (k, v) else kv)
  else d ++ [(k, v)]

/-- `columns` of `save_candidate_row` (src/utils.py:146). -/
def csvColumns : List String :=
  ["name", "email", "phone", "experience", "position", "location", "tech_stack"]

/-- The row written for a candidate: `{col: candidate.get(col, "") ...}`
in fixed column order (src/utils.py:147). -/
def rowOf (candidate : PyDict) : List String :=
  csvColumns.map (fun col => dictGetD candidate col "")

/-- `save_candidate_row(filepath, candidate)`: the CSV file at the path is
modelled as `none` (absent) or `some rows` (header row included).  The
function creates the file with the 7-column header if absent, then
appends the candidate's row; the new file contents are returned. -/
def save_candidate_row (file : Option (List (List String))) (candidate : PyDict) :
    List (List String) :=
  let contents := match file with
    | none => [csvColumns]
    | some rows => rows
  contents ++ [rowOf candidate]

/-! ## `is_goodbye`, `get_missing_fields` (src/utils.py:159-168) -/

def GOODBYE_KEYWORDS : List String :=
  ["bye", "goodbye", "thank you", "thanks", "exit", "quit", "see you"]

/-- `is_goodbye(text)`: case-insensitive substring search of the fixed
keywords in the trimmed, lower-cased input. -/
def is_goodbye (text : String) : Bool :=
  if text = "" then false
  else
    let lower := (stripChars text.toList).map Char.toLower
    GOODBYE_KEYWORDS.any (fun k => hasSubseg k.toList lower)

def REQUIRED_FIELDS : List String :=
  ["name", "email", "phone", "experience", "position", "location", "tech_stack"]

/-- `get_missing_fields(candidate)`: the required fields whose value is
falsy (absent or the empty string). -/
def get_missing_fields (candidate : PyDict) : List String :=
  REQUIRED_FIELDS.filter (fun f => dictGetD candidate f "" = "")

/-! ## The dialogue turn handler (src/app.py) -/

/-- `UNKNOWN_FALLBACK` (src/prompts.py:31). -/
def UNKNOWN_FALLBACK : String := "I’m sorry, could you please clarify that?"

/-- Results of the two `re` searches in `_extract_value_for_field`
(src/app.py:95,101), passed in as oracles for the regex engine. -/
structure RegexOracle where
  emailMatch : Option String
  expMatch : Option String
deriving DecidableEq

/-- `_extract_value_for_field(user_text, field)` (src/app.py:91-107). -/
def _extract_value_for_field (rx : RegexOracle) (user_text field : String) : String :=
  let text := (stripChars user_text.toList).asString
  if field = "email" then
    match rx.emailMatch with
    | some m => m
    | none => text
  else if field = "phone" then
    let digits := (text.toList.filter Char.isDigit).asString
    if digits.length ≥ 7 then digits else text
  else if field = "experience" then
    match rx.expMatch with
    | some m => m
    | none => text
  else if field = "tech_stack" then
    String.intercalate ", " (parseTechStackStr text)
  else text

/-- `_field_label` (src/app.py:79-88), with the static strings of
`_language_texts` (src/app.py:59-76). -/
def _field_label (field_key : String) : String :=
  if field_key = "name" then "Please share your full name."
  else if field_key = "email" then "Please share your email address."
  else if field_key = "phone" then "Please share your phone number."
  else if field_key = "experience" then "How many total years of experience do you have?"
  else if field_key = "position" then "What position are you applying for?"
  else if field_key = "location" then "What is your current location?"
  else if field_key = "tech_stack" then "Please list your tech stack (e.g., Python, Django, React)."
  else UNKNOWN_FALLBACK

/-- The session state of src/app.py (`st.session_state` keys set by
`_init_state`, src/app.py:28-56); messages are (role, content) pairs. -/
structure SessionState where
  messages : List (String × String)
  candidate : PyDict
  tech_list : List String
  current_field : String
  session_ended : Bool
  asked_questions : List String
  chatbot_mode : Bool
  info_collected : Bool
deriving DecidableEq

deriving instance DecidableEq for Except

/-- The remote/heuristic inputs of one user turn: the regex results, the
`generate_content` outcomes for question generation and for chatbot
replies, and the `random.choice(GOODBYE_RESPONSES)` pick.  (The
sentiment score only feeds a transiently displayed line and never enters
the session state.) -/
structure TurnOracles where
  rx : RegexOracle
  genResponse : Except Unit String
  chatResponse : Except Unit String
  goodbyeMsg : String
deriving DecidableEq

/-- The observable outcome of one user turn: the new session state, the
row handed to `save_candidate_row` (if any), whether
`generate_questions` was invoked, and whether an uncaught exception
escaped the turn (leaving the state as mutated up to that point). -/
structure TurnResult where
  state : SessionState
  savedRow : Option (List String)
  calledGenerate : Bool
  crashed : Bool
deriving DecidableEq

/-- The candidate dict built by `_init_state` (src/app.py:31-40). -/
def initCandidate : PyDict :=
  [("name", ""), ("email", ""), ("phone", ""), ("experience", ""),
   ("position", ""), ("location", ""), ("tech_stack", "")]

/-- The state after `_init_state` plus the initial-greeting block
(src/app.py:272-281): greeting and first prompt emitted,
`current_field = "name"`. -/
def initState : SessionState :=
  { messages :=
      [("assistant", "Hello! I'm TalentScout, your AI Hiring Assistant. I'll collect a few details for initial screening. Shall we begin?"),
       ("assistant", _field_label "name")]
    candidate := initCandidate
    tech_list := []
    current_field := "name"
    session_ended := false
    asked_questions := []
    chatbot_mode := false
    info_collected := false }

/-- The goodbye branch (src/app.py:310-335): summary of non-empty fields,
goodbye message, row persisted, session ended.  No field capture. -/
def goodbyeTurn (o : TurnOracles) (s : SessionState) : TurnResult :=
  let summary_lines :=
    (s.candidate.filter (fun kv => kv.2 ≠ "")).map (fun kv => kv.1 ++ ": " ++ kv.2)
  let summary :=
    if summary_lines.isEmpty then "No details provided."
    else String.intercalate "\n" summary_lines
  let content := o.goodbyeMsg ++ "\n\n" ++ "Summary of your details" ++ ":\n" ++ summary
  { state := { s with
      messages := s.messages ++ [("assistant", content)]
      session_ended := true }
    savedRow := some (rowOf s.candidate)
    calledGenerate := false
    crashed := false }

/-- The open-chat branch (src/app.py:338-348), with `_chatbot_response`
(src/app.py:129-160): reply text, `UNKNOWN_FALLBACK` on empty or raised
response. -/
def chatbotTurn (o : TurnOracles) (s : SessionState) : TurnResult :=
  let response :=
    match o.chatResponse with
    | .ok t =>
      if (stripChars t.toList).asString = "" then UNKNOWN_FALLBACK
      else (stripChars t.toList).asString
    | .error _ => UNKNOWN_FALLBACK
  { state := { s with messages := s.messages ++ [("assistant", response)] }
    savedRow := none
    calledGenerate := false
    crashed := false }

/-- The confirm-and-generate-questions block (src/app.py:367-408).  A
raised `generate_questions` call escapes `main` (nothing catches it), so
the turn crashes with the state as mutated up to the call. -/
def questionPhase (o : TurnOracles) (s : SessionState) : TurnResult :=
  let confirm_msg :=
    "Thanks! You've listed the following technologies: " ++
      String.intercalate ", " s.tech_list
  let s1 := { s with messages := s.messages ++ [("assistant", confirm_msg)] }
  match generateQuestionsStr s.tech_list o.genResponse with
  | .error _ => { state := s1, savedRow := none, calledGenerate := true, crashed := true }
  | .ok qs =>
    let s2 :=
      if qs ≠ [] then
        { s1 with
          asked_questions := qs
          messages := s1.messages ++ [("assistant",
            "Here are a few technical questions based on your tech stack:" ++ "\n" ++
              String.intercalate "\n" (qs.map (fun q => "- " ++ q)))] }
      else
        { s1 with messages := s1.messages ++ [("assistant", UNKNOWN_FALLBACK)] }
    let s3 := { s2 with
      messages := s2.messages ++ [("assistant",
        "I'm now ready to answer any questions you have! Feel free to ask me about technical topics, career advice, or anything else!")]
      chatbot_mode := true
      info_collected := true
      current_field := "" }
    { state := s3, savedRow := none, calledGenerate := true, crashed := false }

/-- The capture step of a turn (src/app.py:353-360): store the extracted
value for the currently asked field (and refresh `tech_list` when that
field is the tech stack); no capture when no field is pending. -/
def captureStep (o : TurnOracles) (s : SessionState) (user_input : String) : SessionState :=
  if s.current_field ≠ "" then
    let value := _extract_value_for_field o.rx user_input s.current_field
    { s with
      candidate := dictSet s.candidate s.current_field value
      tech_list := if s.current_field = "tech_stack" then parseTechStackStr value
        else s.tech_list }
  else s

/-- The collection path of a turn (src/app.py:350-416): capture the
currently asked field only, recompute missing fields, then either run
the question phase, do nothing, or ask the next missing field. -/
def collectTurn (o : TurnOracles) (s : SessionState) (user_input : String) : TurnResult :=
  let s1 := captureStep o s user_input
  match get_missing_fields s1.candidate with
  | [] =>
    if s1.info_collected = false then
      if s1.tech_list ≠ [] ∧ s1.asked_questions = [] then questionPhase o s1
      else { state := s1, savedRow := none, calledGenerate := false, crashed := false }
    else { state := s1, savedRow := none, calledGenerate := false, crashed := false }
  | f :: _ =>
    { state := { s1 with
        current_field := f
        messages := s1.messages ++ [("assistant", _field_label f)] }
      savedRow := none
      calledGenerate := false
      crashed := false }

/-- One user turn of `main` (src/app.py:294-416).  When the session has
ended the input widget is disabled, and an empty submission is not
processed (`if user_input:`), so both cases leave the state unchanged. -/
def handleTurn (o : TurnOracles) (s : SessionState) (user_input : String) : TurnResult :=
  if s.session_ended = true ∨ user_input = "" then
    { state := s, savedRow := none, calledGenerate := false, crashed := false }
  else
    let s0 := { s with messages := s.messages ++ [("user", user_input)] }
    if is_goodbye user_input then goodbyeTurn o s0
    else if s0.chatbot_mode then chatbotTurn o s0
    else collectTurn o s0 user_input

/-- The dialogue states reachable from the session start through user
turns (the sidebar "Reset Conversation" re-creates `initState`, which is
already covered by `init`). -/
inductive Reachable : SessionState → Prop where
  | init : Reachable initState
  | step (o : TurnOracles) (input : String) {s : SessionState} :
      Reachable s → Reachable (handleTurn o s input).state

/-! ## Key-set invariant of the candidate record -/

def dictKeys (d : PyDict) : List String := d.map Prod.fst

theorem dictSet_keys {d : PyDict} {k : String} (v : String) (hk : k ∈ dictKeys d) :
    dictKeys (dictSet d k v) = dictKeys d := by
  unfold dictSet
  rw [if_pos]
  · unfold dictKeys
    rw [List.map_map]
    apply List.map_congr_left
    intro kv hkv
    by_cases h : kv.1 = k
    · simp [h]
    · simp [h]
  · rw [List.any_eq_true]
    rcases List.mem_map.mp hk with ⟨kv, hkv, rfl⟩
    exact ⟨kv, hkv, by simp⟩

def StateWF (s : SessionState) : Prop :=
  dictKeys s.candidate = REQUIRED_FIELDS ∧
  (s.current_field = "" ∨ s.current_field ∈ REQUIRED_FIELDS)

theorem stateWF_init : StateWF initState := by
  constructor
  · decide
  · right; decide

theorem questionPhase_WF (o : TurnOracles) {s : SessionState}
    (h : StateWF s) : StateWF (questionPhase o s).state := by
  simp only [questionPhase]
  split
  · exact ⟨h.1, h.2⟩
  · next qs heq =>
    by_cases hq : qs ≠ []
    · rw [if_pos hq]
      exact ⟨h.1, Or.inl rfl⟩
    · rw [if_neg hq]
      exact ⟨h.1, Or.inl rfl⟩

theorem captureStep_WF (o : TurnOracles) (s : SessionState) (input : String)
    (h : StateWF s) : StateWF (captureStep o s input) ∧
      (captureStep o s input).current_field = s.current_field := by
  unfold captureStep
  by_cases hcf : s.current_field ≠ ""
  · rw [if_pos hcf]
    have hk : s.current_field ∈ dictKeys s.candidate := by
      rw [h.1]
      rcases h.2 with h2 | h2
      · exact absurd h2 hcf
      · exact h2
    exact ⟨⟨by rw [show dictKeys (dictSet s.candidate s.current_field _) =
        dictKeys s.candidate from dictSet_keys _ hk]; exact h.1, h.2⟩, rfl⟩
  · rw [if_neg hcf]
    exact ⟨h, rfl⟩

theorem missing_sub (c : PyDict) : ∀ f ∈ get_missing_fields c, f ∈ REQUIRED_FIELDS := by
  intro f hf
  exact List.mem_of_mem_filter hf

theorem collectTurn_WF (o : TurnOracles) (s : SessionState) (input : String)
    (h : StateWF s) : StateWF (collectTurn o s input).state := by
  obtain ⟨h1, _⟩ := captureStep_WF o s input h
  simp only [collectTurn]
  cases hm : get_missing_fields (captureStep o s input).candidate with
  | nil =>
    by_cases hic : (captureStep o s input).info_collected = false
    · rw [if_pos hic]
      by_cases hq : (captureStep o s input).tech_list ≠ [] ∧
          (captureStep o s input).asked_questions = []
      · rw [if_pos hq]
        exact questionPhase_WF o h1
      · rw [if_neg hq]
        exact h1
    · rw [if_neg hic]
      exact h1
  | cons f rest =>
    refine ⟨h1.1, Or.inr ?_⟩
    exact missing_sub _ f (hm ▸ List.mem_cons_self f rest)

theorem stateWF_step (o : TurnOracles) (input : String) {s : SessionState}
    (h : StateWF s) : StateWF (handleTurn o s input).state := by
  unfold handleTurn
  by_cases hg : s.session_ended = true ∨ input = ""
  · rw [if_pos hg]
    exact h
  · rw [if_neg hg]
    by_cases hb : is_goodbye input
    · rw [if_pos hb]
      exact ⟨h.1, h.2⟩
    · rw [if_neg hb]
      by_cases hc : ({ s with messages := s.messages ++ [("user", input)] } : SessionState).chatbot_mode
      · rw [if_pos hc]
        exact ⟨h.1, h.2⟩
      · rw [if_neg hc]
        exact collectTurn_WF o _ input ⟨h.1, h.2⟩

/-! ## Claim theorems -/

/-- A concrete oracle bundle used by the closed witness and
counterexample statements: failing remote calls, no regex matches, and a
fixed goodbye pick. -/
def oracleA : TurnOracles :=
  { rx := { emailMatch := none, expMatch := none }
    genResponse := .error ()
    chatResponse := .error ()
    goodbyeMsg := "Thank you for your time today! Wishing you the best of luck." }

/-- The first number-stripping condition of `generate_questions`
(`clean[:2].isdigit() and clean[1:2] == "."`, src/utils.py:126) is
unsatisfiable: a fully-digit 2-character slice cannot have `"."` as its
second character, and shorter inputs fail one of the two tests. -/
theorem cleanLine_digit2_dead (line : List Char) :
    (pyIsdigitL (line.take 2) && decide ((line.drop 1).take 1 = ['.'])) = false := by
  match line with
  | [] => rfl
  | [a] => simp
  | a :: b :: rest =>
    by_cases hb : b = '.'
    · subst hb
      simp [pyIsdigitL]
    · simp [List.take, List.drop, hb]

/-- C1: the claim says a remote response of 4 well-formed numbered lines
comes back with the enumeration markers removed.  The code's two
number-stripping conditions are dead (see `cleanLine_digit2_dead`), so
evaluating the embedded `generate_questions` at the spec's own scenario
(tokens `["Python","SQL"]`, 4 numbered lines) returns the lines with
`"1. "`..`"4. "` intact — contradicting the source's own comment
"Remove leading numbering like \"1. \" or \"- \"". -/
theorem claim_C1_numbering_kept :
    generateQuestionsStr ["Python", "SQL"]
      (.ok "1. What is a Python decorator?\n2. Explain SQL joins.\n3. How does a dict work?\n4. What is an index?") =
    .ok ["1. What is a Python decorator?", "2. Explain SQL joins.",
      "3. How does a dict work?", "4. What is an index?"] := by decide

/-- A session state with all seven fields captured, a non-empty token
list, and questions not yet generated: the next turn runs the
question-generation phase. -/
def stateC2 : SessionState :=
  { messages := []
    candidate := [("name", "Ada"), ("email", "ada@example.com"), ("phone", "5551234567"),
      ("experience", "5"), ("position", "Engineer"), ("location", "Paris"),
      ("tech_stack", "Python")]
    tech_list := ["Python"]
    current_field := ""
    session_ended := false
    asked_questions := []
    chatbot_mode := false
    info_collected := false }

/-- C2: the claim says a failing or empty remote generation call never
propagates an exception and the session shows the fallback string.  The
empty-response half holds (`.ok []`, for which the caller displays the
fallback), but `generate_questions` wraps no `try/except` around
`model.generate_content` — unlike every other remote call site — so a
raising call escapes (`.error`), and a turn that reaches the question
phase with a raising model crashes instead of degrading. -/
theorem claim_C2_exception_escapes :
    generateQuestionsStr ["Python"] (.error ()) = .error () ∧
    generateQuestionsStr ["Python"] (.ok "") = .ok [] ∧
    (handleTurn oracleA stateC2 "I like Python").crashed = true := by decide

/-- C3 counterexample: the claim describes a single terminal fallback,
"a hard-coded generic fallback identifier, suffix-stripped from the
preferred identifier", for both the listing-failed and the
nothing-supported cases.  The code returns two different identifiers:
`"gemini-pro"` (hard-coded, not derived from the preferred id) when no
listed model supports generation, and the suffix-stripped preferred id
(not a hard-coded generic) when listing fails. -/
theorem claim_C3_counterexample :
    resolve_supported_model "gemini-2.5-flash" (.ok [⟨"models/chat-bison", []⟩]) = "gemini-pro" ∧
    resolve_supported_model "gemini-2.5-flash" (.error ()) = "gemini-2.5-flash" ∧
    ("gemini-pro" : String) ≠ "gemini-2.5-flash" := by decide

/-- C3 (amended): `resolve_supported_model` is total (never raises) and
follows the claimed deterministic order — exact preferred match first,
then the preference list, then the first supported model in listing
order — with the terminal fallbacks split per the code: on listing
failure the suffix-stripped preferred id (or `"gemini-pro"` if empty),
and on an empty supported set the hard-coded `"gemini-pro"`. -/
theorem claim_C3_amended (preferred : String) (listing : Except Unit (List GModel)) :
    resolve_supported_model preferred listing = resolveModelSpec preferred listing := by
  cases listing with
  | error e =>
    simp only [resolve_supported_model, resolveModelSpec]
    by_cases h : stripLatest preferred = ""
    · simp [h]
    · simp [h]
  | ok models =>
    simp only [resolve_supported_model, resolveModelSpec]
    cases hf : models.filter supports_generate with
    | nil => simp [hf]
    | cons m0 ms =>
      simp only [hf]
      rw [if_neg (by simp)]
      rfl

/-- A session state in which all seven candidate fields are non-empty,
no questions were generated, and the tokenized tech list is empty. -/
def stateC4 : SessionState :=
  { messages := []
    candidate := [("name", "Ada"), ("email", "ada@example.com"), ("phone", "5551234567"),
      ("experience", "5"), ("position", "Engineer"), ("location", "Paris"),
      ("tech_stack", "none of note")]
    tech_list := []
    current_field := ""
    session_ended := false
    asked_questions := []
    chatbot_mode := false
    info_collected := false }

/-- C4 counterexample: in a state with all seven fields non-empty,
questions not generated and an empty token list, the claim says the next
user turn transitions the session to open-chat mode.  It does not: the
guarded branch `if st.session_state.tech_list and not ...` is skipped,
so `chatbot_mode` stays `false` (and no generation call is made). -/
theorem claim_C4_counterexample :
    (handleTurn oracleA stateC4 "hello there").state.chatbot_mode = false ∧
    (handleTurn oracleA stateC4 "hello there").calledGenerate = false := by decide

/-- C4 (amended): in a dialogue state where all seven candidate fields
are non-empty, no field is pending, questions have not been generated,
info is not marked collected and the tokenized tech-stack list is empty,
a further user turn (non-goodbye, outside chatbot mode, session not
ended) makes no question-generation call and leaves the question list
empty, but the session does NOT move to open-chat mode: the turn leaves
the state unchanged apart from recording the user message, with the
chatbot-mode and info-collected flags still false. -/
theorem claim_C4_amended (o : TurnOracles) (s : SessionState) (input : String)
    (hend : s.session_ended = false) (hin : input ≠ "")
    (hgb : is_goodbye input = false) (hcb : s.chatbot_mode = false)
    (hcf : s.current_field = "") (hmiss : get_missing_fields s.candidate = [])
    (haq : s.asked_questions = []) (htl : s.tech_list = [])
    (hic : s.info_collected = false) :
    handleTurn o s input =
      { state := { s with messages := s.messages ++ [("user", input)] }
        savedRow := none
        calledGenerate := false
        crashed := false } := by
  unfold handleTurn
  rw [if_neg (by simp [hend, hin]), if_neg (by simp [hgb]), if_neg (by simp [hcb])]
  simp only [collectTurn, captureStep]
  rw [if_neg (by simp [hcf])]
  rw [hmiss]
  rw [if_pos hic, if_neg (by simp [htl])]

/-- C5: a goodbye-keyword turn while a field is pending (the current
field's value still empty) captures nothing: every field of the
candidate record is unchanged, the session-ended flag is set, and the
persisted row carries the pending field as an empty column. -/
theorem claim_C5_goodbye_priority (o : TurnOracles) (s : SessionState) (input : String)
    (hend : s.session_ended = false) (hin : input ≠ "")
    (hgb : is_goodbye input = true)
    (hf : s.current_field ∈ csvColumns)
    (hpend : dictGetD s.candidate s.current_field "" = "") :
    (handleTurn o s input).state.candidate = s.candidate ∧
    (handleTurn o s input).state.session_ended = true ∧
    (handleTurn o s input).savedRow = some (rowOf s.candidate) ∧
    ∃ i : Nat, csvColumns.get? i = some s.current_field ∧
      (rowOf s.candidate).get? i = some "" := by
  unfold handleTurn
  rw [if_neg (by simp [hend, hin]), if_pos hgb]
  refine ⟨rfl, rfl, rfl, ?_⟩
  rcases List.mem_iff_get.mp hf with ⟨⟨i, hi⟩, hget⟩
  refine ⟨i, ?_, ?_⟩
  · rw [List.get?_eq_get hi, hget]
  · unfold rowOf
    rw [List.get?_map, List.get?_eq_get hi, hget]
    simp [hpend]

/-- A `Collecting(email)` state with four fields already filled. -/
def stateC5 : SessionState :=
  { messages := []
    candidate := [("name", "Ada"), ("email", ""), ("phone", "5551234567"),
      ("experience", "5"), ("position", ""), ("location", "Paris"), ("tech_stack", "")]
    tech_list := []
    current_field := "email"
    session_ended := false
    asked_questions := []
    chatbot_mode := false
    info_collected := false }

/-- C5 witness: the goodbye turn from `Collecting(email)` with four
fields filled, at the concrete input `"ok bye"`. -/
theorem claim_C5_witness :
    (handleTurn oracleA stateC5 "ok bye").state.candidate = stateC5.candidate ∧
    (handleTurn oracleA stateC5 "ok bye").state.session_ended = true ∧
    (handleTurn oracleA stateC5 "ok bye").savedRow = some (rowOf stateC5.candidate) ∧
    ∃ i : Nat, csvColumns.get? i = some stateC5.current_field ∧
      (rowOf stateC5.candidate).get? i = some "" :=
  claim_C5_goodbye_priority oracleA stateC5 "ok bye" (by decide) (by decide) (by decide)
    (by decide) (by decide)

/-- C6: in every reachable dialogue state the candidate record contains
exactly the seven keys name, email, phone, experience, position,
location, tech_stack — in that order, values possibly empty — and no
others; every turn handler preserves this key set. -/
theorem claim_C6_record_keys (s : SessionState) (h : Reachable s) :
    dictKeys s.candidate = REQUIRED_FIELDS := by
  have hwf : StateWF s := by
    induction h with
    | init => exact stateWF_init
    | step o input hr ih => exact stateWF_step o input ih
  exact hwf.1

/-- C6 witness: the invariant at the initial state. -/
theorem claim_C6_witness : dictKeys initState.candidate = REQUIRED_FIELDS :=
  claim_C6_record_keys initState Reachable.init

/-- C7: the tech-stack tokenizer equals the reference algorithm of the
spec (replace `" and "` by a comma, split on commas, trim, drop empties,
preserve order, no dedup or case-folding); in particular
`tokenize("") = []` and
`tokenize("Python and React, Go") = ["Python","React","Go"]`. -/
theorem claim_C7_tokenizer :
    (∀ s : String, parseTechStackStr s = tokenizeSpecStr s) ∧
    parseTechStackStr "" = [] ∧
    parseTechStackStr "Python and React, Go" = ["Python", "React", "Go"] := by
  refine ⟨?_, by decide, by decide⟩
  intro s
  unfold parseTechStackStr tokenizeSpecStr
  rw [parse_tech_stack_eq_spec]

/-- C8: appending two records to a fresh filepath yields a file with
exactly one header row (the seven fixed columns) followed by the two
data rows, each holding the record's seven field values in column
order. -/
theorem claim_C8_persistence (c1 c2 : PyDict) :
    save_candidate_row (some (save_candidate_row none c1)) c2 =
      [csvColumns, rowOf c1, rowOf c2] := by
  simp [save_candidate_row]

/-- C9: the sentiment bucketing is positive iff polarity > 0.2 and
negative iff polarity < -0.2 (both strict, so exactly 0.2 and -0.2 map
to neutral), and an unavailable sentiment routine or empty input yields
`(0.0, "neutral")`. -/
theorem claim_C9_sentiment (avail : Bool) (text : String) (pol : ℚ) :
    ((blob_sentiment avail text pol).2 = "positive" ↔
      avail = true ∧ text ≠ "" ∧ 1/5 < pol) ∧
    ((blob_sentiment avail text pol).2 = "negative" ↔
      avail = true ∧ text ≠ "" ∧ pol < -(1/5)) ∧
    blob_sentiment false text pol = (0, "neutral") ∧
    blob_sentiment avail "" pol = (0, "neutral") ∧
    (blob_sentiment avail text (1/5)).2 ≠ "positive" ∧
    (blob_sentiment avail text (-(1/5))).2 ≠ "negative" := by
  refine ⟨?_, ?_, by simp [blob_sentiment], by simp [blob_sentiment], ?_, ?_⟩
  · unfold blob_sentiment
    split_ifs with h1 h2 h3 <;> simp_all
    all_goals try linarith
    all_goals rintro rfl ht
    all_goals rcases h1 with h1 | h1 <;> first | simp at h1 | exact absurd h1 ht
  · unfold blob_sentiment
    split_ifs with h1 h2 h3 <;> simp_all
    all_goals try linarith
    all_goals rintro rfl ht
    all_goals rcases h1 with h1 | h1 <;> first | simp at h1 | exact absurd h1 ht
  · unfold blob_sentiment
    split_ifs with h1 h2 h3 <;> simp_all
  · unfold blob_sentiment
    split_ifs with h1 h2 h3 <;> simp_all

/-- C4 witness: the amended statement at the concrete state `stateC4`
and input `"hello there"`. -/
theorem claim_C4_witness :
    handleTurn oracleA stateC4 "hello there" =
      { state := { stateC4 with messages := stateC4.messages ++ [("user", "hello there")] }
        savedRow := none
        calledGenerate := false
        crashed := false } :=
  claim_C4_amended oracleA stateC4 "hello there" (by decide) (by decide) (by decide)
    (by decide) (by decide) (by decide) (by decide) (by decide) (by decide)

/-- C10 counterexample: idempotence fails at `s = "x,and Bob"`.
`parse_tech_stack` gives `["x","and Bob"]`; the `", "`-join is
`"x, and Bob"`, which now contains `" and "`, so re-parsing gives
`["x","Bob"]`. -/
theorem claim_C10_counterexample :
    parse_tech_stack (joinCS (parse_tech_stack "x,and Bob".toList)) ≠
      parse_tech_stack "x,and Bob".toList := by decide

/-- C10 witness: the amended statement at `"Python and React, Go"`,
whose tokens after the first do not begin with `"and "`. -/
theorem claim_C10_witness :
    (∀ t ∈ (parse_tech_stack "Python and React, Go".toList).tail,
      leadsWith andTail t = false) ∧
    parse_tech_stack (joinCS (parse_tech_stack "Python and React, Go".toList)) =
      parse_tech_stack "Python and React, Go".toList :=
  ⟨by decide, claim_C10_amended _ (by decide)⟩

end TalentScout
